import Mathlib

/-!
Verification of the `aichat` safety-gate core: the risk classifier
(`src/utils/command_analyzer.rs`) and the backup store (`src/utils/backup.rs`),
shallowly embedded in Lean.  Rust strings are Lean `String`s, the filesystem is
an explicit state (a map from path to file bytes), and fallible operations
return `Except String`.
-/

namespace Aichat

/-! ### String helpers mirroring the Rust `str` methods used by the source -/

/-- List-level prefix test: does the first list start with the second? -/
def strStartsWithL : List Char → List Char → Bool
  | _, [] => true
  | [], _ :: _ => false
  | c :: cs, p :: ps => c == p && strStartsWithL cs ps

/-- List-level substring test (Rust `str::contains` for a literal pattern). -/
def strContainsL : List Char → List Char → Bool
  | [], pat => strStartsWithL [] pat
  | c :: cs, pat => strStartsWithL (c :: cs) pat || strContainsL cs pat

/-- Rust `str::contains(pat)`. -/
def strContains (s pat : String) : Bool :=
  strContainsL s.data pat.data

/-- Rust `str::starts_with(pat)`. -/
def strStartsWith (s pat : String) : Bool :=
  strStartsWithL s.data pat.data

/-- Rust `str::ends_with(pat)`. -/
def strEndsWith (s pat : String) : Bool :=
  strStartsWithL s.data.reverse pat.data.reverse

/-- Split a character list at every separator satisfying `p`, keeping empty
pieces, as Rust `str::split` does ("a||b" splits into "a", "", "b"). -/
def splitIfL (p : Char → Bool) : List Char → List (List Char)
  | [] => [[]]
  | c :: cs =>
    if p c then [] :: splitIfL p cs
    else
      match splitIfL p cs with
      | [] => [[c]]
      | w :: ws => (c :: w) :: ws

/-- Rust `str::split('|')`. -/
def splitPipe (s : String) : List String :=
  (splitIfL (fun c => c == '|') s.data).map String.mk

/-- Rust `str::trim`: drop whitespace from both ends. -/
def strTrim (s : String) : String :=
  String.mk (((s.data.dropWhile Char.isWhitespace).reverse.dropWhile
    Char.isWhitespace).reverse)

/-- Rust `str::split_whitespace`: split on whitespace, dropping empty pieces. -/
def splitWhitespaceF (s : String) : List String :=
  ((splitIfL Char.isWhitespace s.data).filter (fun t => !t.isEmpty)).map String.mk

/-! ### The risk classifier (`command_analyzer.rs`) -/

/-- `CommandOperation` from `command_analyzer.rs`. -/
inductive CommandOperation where
  | Read
  | Write
  | Modify
  | Delete
  | Move
  | Copy
  | Create
  | Execute
  | Network
  | System
  | Unknown
deriving DecidableEq

/-- `CommandOperation::is_destructive`. -/
def CommandOperation.is_destructive : CommandOperation → Bool
  | .Delete | .Modify => true
  | _ => false

/-- `CommandOperation::needs_backup`. -/
def CommandOperation.needs_backup : CommandOperation → Bool
  | .Delete | .Modify | .Move | .Write => true
  | _ => false

/-- `SafetyLevel` from `command_analyzer.rs`. -/
inductive SafetyLevel where
  | Safe
  | Caution
  | Dangerous
  | Critical
deriving DecidableEq

/-- The danger ranking used by `CommandAnalysis::most_dangerous`. -/
def rank : CommandOperation → Nat
  | .Delete => 5
  | .System => 4
  | .Modify => 3
  | .Move | .Write => 2
  | .Execute | .Network | .Copy | .Create => 1
  | .Read | .Unknown => 0

/-- `CommandAnalysis::most_dangerous`: keeps `op1` when `rank op1 >= rank op2`. -/
def most_dangerous (op1 op2 : CommandOperation) : CommandOperation :=
  if rank op2 ≤ rank op1 then op1 else op2

/-- One iteration of the pipeline loop in `CommandAnalysis::analyze`: classify a
single pipe stage from its leading word; `none` when the stage has no tokens
(the Rust loop `continue`s). The substring guards inspect the raw (untrimmed)
stage text, as the Rust code does. -/
def stageOperation (pipe_cmd : String) : Option CommandOperation :=
  match (splitWhitespaceF (strTrim pipe_cmd)).head? with
  | none => none
  | some cmd_word =>
    some (
      if cmd_word == "rm" || cmd_word == "rmdir" then .Delete
      else if cmd_word == "mv" || cmd_word == "rename" then .Move
      else if cmd_word == "cp" then .Copy
      else if cmd_word == "touch" || cmd_word == "mkdir" then .Create
      else if (cmd_word == "sed" || cmd_word == "awk") && strContains pipe_cmd "-i" then .Modify
      else if cmd_word == "cat" || cmd_word == "less" || cmd_word == "more" ||
              cmd_word == "grep" || cmd_word == "find" || cmd_word == "ls" then .Read
      else if cmd_word == "echo" && strContains pipe_cmd ">" then .Write
      else if cmd_word == "tee" then .Write
      else if cmd_word == "curl" || cmd_word == "wget" || cmd_word == "ssh" ||
              cmd_word == "scp" || cmd_word == "rsync" then .Network
      else if cmd_word == "sudo" || cmd_word == "systemctl" || cmd_word == "service" then .System
      else if cmd_word == "sh" || cmd_word == "bash" || cmd_word == "zsh" ||
              cmd_word == "python" || cmd_word == "node" || cmd_word == "ruby" then .Execute
      else if cmd_word == "xargs" then
        (if strContains pipe_cmd " rm " || strEndsWith pipe_cmd " rm" then .Delete
         else if strContains pipe_cmd " mv " then .Move
         else .Unknown)
      else .Unknown)

/-- The pipeline fold of `CommandAnalysis::analyze`: split on the pipe
character, classify each stage, and keep the most dangerous operation,
starting from `Unknown`. -/
def analyzeOperation (command : String) : CommandOperation :=
  (splitPipe command).foldl
    (fun acc pipe_cmd =>
      match stageOperation pipe_cmd with
      | none => acc
      | some op => most_dangerous acc op)
    CommandOperation.Unknown

/-- The filesystem facts the analyzer and extractor consult: Rust
`Path::exists` and `Path::is_file` by path text. -/
structure FileSystem where
  pathExists : String → Bool
  isFile : String → Bool

/-- `is_common_command` from `backup.rs`: the denylist of command names that
are never treated as file paths. -/
def is_common_command (word : String) : Bool :=
  word == "ls" || word == "cd" || word == "pwd" || word == "echo" || word == "cat" ||
  word == "grep" || word == "find" || word == "sed" || word == "awk" || word == "rm" ||
  word == "mv" || word == "cp" || word == "mkdir" || word == "touch" || word == "chmod" ||
  word == "chown" || word == "sudo" || word == "curl" || word == "wget" || word == "git" ||
  word == "docker" || word == "npm" || word == "yarn" || word == "cargo" || word == "python" ||
  word == "node" || word == "bash" || word == "sh" || word == "zsh"

/-- `extract_file_paths_from_command` from `backup.rs`: whitespace tokens that
are not flags, not denylisted command names, and that exist as regular files. -/
def extract_file_paths_from_command (fs : FileSystem) (command : String) : List String :=
  (splitWhitespaceF command).filter
    (fun word =>
      !(strStartsWith word "-") && !(is_common_command word) &&
        fs.pathExists word && fs.isFile word)

/-- `CommandAnalysis` from `command_analyzer.rs` (paths as strings). -/
structure CommandAnalysis where
  command : String
  operation : CommandOperation
  affected_files : List String
  warnings : List String
  safety_level : SafetyLevel

/-- The warning text pushed in the `Critical` branch of `analyze`. -/
def criticalWarning : String :=
  "⚠️  CRITICAL: This command requires elevated privileges or affects system files!"

/-- The warning text pushed in the `Dangerous` branch of `analyze`. -/
def dangerousWarning : String :=
  "⚠️  DANGEROUS: This operation cannot be easily undone!"

/-- The warning text pushed in the `Caution` branch of `analyze`. -/
def cautionWarning : String :=
  "⚠️  CAUTION: This operation will modify files."

/-- The recursive-delete warning text of `analyze`. -/
def recursiveDeleteWarning : String :=
  "⚠️  Recursive delete - will remove directories and all contents!"

/-- The wildcard warning text of `analyze`. -/
def wildcardWarning : String :=
  "⚠️  Wildcard pattern - multiple files will be affected!"

/-- The move notice text of `analyze`. -/
def moveWarning : String :=
  "💡 Files will be moved/renamed."

/-- The backup suggestion text of `analyze`. -/
def backupSuggestion : String :=
  "✓ Backup will be created automatically before execution."

/-- The safety-level if-chain of `CommandAnalysis::analyze`, paired with the
single warning that branch pushes. -/
def safetyAndWarning (command : String) (op : CommandOperation) :
    SafetyLevel × List String :=
  if strContains command "sudo" || strContains command "rm -rf /" then
    (SafetyLevel.Critical, [criticalWarning])
  else if op.is_destructive then
    (SafetyLevel.Dangerous, [dangerousWarning])
  else if op.needs_backup then
    (SafetyLevel.Caution, [cautionWarning])
  else
    (SafetyLevel.Safe, [])

/-- `CommandAnalysis::analyze`, parameterized by the filesystem the extractor
consults. -/
def analyze (fs : FileSystem) (command : String) : CommandAnalysis :=
  let operation := analyzeOperation command
  let affected_files := extract_file_paths_from_command fs command
  let sw := safetyAndWarning command operation
  let warnings :=
    sw.2
      ++ ((if strContains command " rm " || strStartsWith command "rm " then
            (if strContains command "-rf" || strContains command "-r" then
              [recursiveDeleteWarning] else [])
              ++ (if strContains command "*" || strContains command "?" then
                [wildcardWarning] else [])
          else [])
        ++ (if (strContains command " mv " || strStartsWith command "mv ") &&
              !affected_files.isEmpty then [moveWarning] else [])
        ++ (if operation.needs_backup && !affected_files.isEmpty then
            [backupSuggestion] else []))
  { command := command
    operation := operation
    affected_files := affected_files
    warnings := warnings
    safety_level := sw.1 }

/-- A filesystem on which no path exists; used to evaluate the analyzer on
concrete commands that name no real files. -/
def emptyFS : FileSystem :=
  { pathExists := fun _ => false, isFile := fun _ => false }

/-! ### Theorems about the risk classifier -/

/-- The non-`Safe` branches of the safety if-chain each push one warning. -/
theorem safetyAndWarning_ne_safe (command : String) (op : CommandOperation) :
    (safetyAndWarning command op).1 ≠ SafetyLevel.Safe →
    (safetyAndWarning command op).2 ≠ [] := by
  unfold safetyAndWarning
  split
  · intro _; simp
  · split
    · intro _; simp
    · split
      · intro _; simp
      · intro h; exact absurd rfl h

/-- C1: evaluating `analyze` at the input "rm -rf /tmp/test": the operation is
`Delete` and the recursive-delete warning is present, but the safety level is
`Critical`, not `Dangerous` as the claim (and the repository's own test
`test_analyze_rm_command`) states, because the command text contains the
substring "rm -rf /" and the `Critical` branch fires before `is_destructive`
is consulted. -/
theorem analyze_rm_rf_tmp_test_eval :
    (analyze emptyFS "rm -rf /tmp/test").operation = CommandOperation.Delete ∧
    (analyze emptyFS "rm -rf /tmp/test").safety_level = SafetyLevel.Critical ∧
    (analyze emptyFS "rm -rf /tmp/test").warnings
      = [criticalWarning, recursiveDeleteWarning] :=
  ⟨rfl, rfl, rfl⟩

/-- C2: evaluating `analyze` at the input "cat file.txt", for every filesystem:
the safety level is `Safe` and the warnings list is empty (so it holds no
destructive warning), but the operation is `Unknown`, not `Read` as the claim
(and the repository's own test `test_analyze_cat_command`) states:
`most_dangerous` keeps its first argument on rank ties, the fold starts from
`Unknown`, and `Read` has the same danger rank 0 as `Unknown`. -/
theorem analyze_cat_file_eval :
    ∀ fs : FileSystem,
      (analyze fs "cat file.txt").operation = CommandOperation.Unknown ∧
      (analyze fs "cat file.txt").safety_level = SafetyLevel.Safe ∧
      (analyze fs "cat file.txt").warnings = [] :=
  fun _ => ⟨rfl, rfl, rfl⟩

/-- C3: every command whose text contains the substring "sudo" is classified
`Critical`, for every filesystem and regardless of any other content. -/
theorem analyze_sudo_critical (fs : FileSystem) (command : String)
    (h : strContains command "sudo" = true) :
    (analyze fs command).safety_level = SafetyLevel.Critical := by
  simp [analyze, safetyAndWarning, h]

/-- Witness for C3 at the concrete command "cat sudoku.txt" (which contains
"sudo" only as an inner substring). -/
theorem analyze_sudo_critical_witness :
    strContains "cat sudoku.txt" "sudo" = true ∧
    (analyze emptyFS "cat sudoku.txt").safety_level = SafetyLevel.Critical :=
  ⟨by decide, analyze_sudo_critical emptyFS "cat sudoku.txt" (by decide)⟩

/-- C4: evaluating `analyze` at the input "find . -name 'x' | xargs rm", for
every filesystem: the `find` stage maps to `Read` and the `xargs rm` stage to
`Delete`, the maximal rank across the pipeline, so the overall operation is
`Delete` and the safety level is `Dangerous`. -/
theorem analyze_find_xargs_rm_eval :
    ∀ fs : FileSystem,
      (analyze fs "find . -name \x27x\x27 | xargs rm").operation
        = CommandOperation.Delete ∧
      (analyze fs "find . -name \x27x\x27 | xargs rm").safety_level
        = SafetyLevel.Dangerous :=
  fun _ => ⟨rfl, rfl⟩

/-- C9: a token is returned by `extract_file_paths_from_command` exactly when
it is a whitespace token of the command that does not start with "-", is not
a denylisted common command name, exists on the filesystem, and is a regular
file. -/
theorem extract_file_paths_spec (fs : FileSystem) (command : String) (p : String) :
    p ∈ extract_file_paths_from_command fs command ↔
      (p ∈ splitWhitespaceF command ∧
        strStartsWith p "-" = false ∧
        is_common_command p = false ∧
        fs.pathExists p = true ∧
        fs.isFile p = true) := by
  unfold extract_file_paths_from_command
  rw [List.mem_filter]
  constructor
  · rintro ⟨hmem, hpred⟩
    simp only [Bool.and_eq_true, Bool.not_eq_true'] at hpred
    exact ⟨hmem, hpred.1.1.1, hpred.1.1.2, hpred.1.2, hpred.2⟩
  · rintro ⟨hmem, h1, h2, h3, h4⟩
    refine ⟨hmem, ?_⟩
    simp [h1, h2, h3, h4]

/-- C10: whenever `analyze` assigns a safety level other than `Safe`, the
warnings list is non-empty, for every filesystem and command: each of the
`Critical`, `Dangerous` and `Caution` branches pushes a warning. -/
theorem analyze_unsafe_warnings_nonempty (fs : FileSystem) (command : String)
    (h : (analyze fs command).safety_level ≠ SafetyLevel.Safe) :
    (analyze fs command).warnings ≠ [] := by
  have hs : (analyze fs command).safety_level =
      (safetyAndWarning command (analyzeOperation command)).1 := rfl
  have hbase := safetyAndWarning_ne_safe command (analyzeOperation command) (hs ▸ h)
  intro hnil
  have hw : (analyze fs command).warnings =
      (safetyAndWarning command (analyzeOperation command)).2 ++
        ((if strContains command " rm " || strStartsWith command "rm " then
            (if strContains command "-rf" || strContains command "-r" then
              [recursiveDeleteWarning] else [])
              ++ (if strContains command "*" || strContains command "?" then
                [wildcardWarning] else [])
          else [])
        ++ (if (strContains command " mv " || strStartsWith command "mv ") &&
              !(extract_file_paths_from_command fs command).isEmpty then
            [moveWarning] else [])
        ++ (if (analyzeOperation command).needs_backup &&
              !(extract_file_paths_from_command fs command).isEmpty then
            [backupSuggestion] else [])) := rfl
  rw [hw] at hnil
  exact hbase (List.append_eq_nil.mp hnil).1

/-- Witness for C10 at the concrete command "sudo ls". -/
theorem analyze_unsafe_warnings_nonempty_witness :
    (analyze emptyFS "sudo ls").safety_level ≠ SafetyLevel.Safe ∧
    (analyze emptyFS "sudo ls").warnings ≠ [] :=
  ⟨by decide, analyze_unsafe_warnings_nonempty emptyFS "sudo ls" (by decide)⟩

/-! ### The backup store (`backup.rs`)

File contents are byte lists; the disk is a map from path text to contents
(regular files only — directory creation never fails and is not tracked).
The JSON index file is modelled as `Option BackupIndex`: `none` when the
index file is absent, `some` the decoded map otherwise, with the `HashMap`
represented as an association list.  The fresh UUID and the timestamp that
`create_backup` draws from the environment are explicit arguments, and the
SHA-256 hex digest is an arbitrary function parameter `sha256hex`, since no
property here depends on the digest algorithm itself. -/

/-- Bytes of one file. -/
abbrev FileBytes := List Nat

/-- `BackupFile` from `backup.rs`. -/
structure BackupFile where
  original_path : String
  backup_path : String
  file_hash : String
deriving DecidableEq

/-- `BackupEntry` from `backup.rs`. -/
structure BackupEntry where
  id : String
  timestamp : String
  command : String
  files : List BackupFile
  description : String
deriving DecidableEq

/-- The regular files on disk, by path. -/
abbrev Disk := String → Option FileBytes

/-- The decoded `backup_index.json` map, as an association list. -/
abbrev BackupIndex := List (String × BackupEntry)

/-- The state a `BackupManager` operates on: its backup root directory, the
index file (absent or decoded), and the disk. -/
structure StoreState where
  backup_dir : String
  index : Option BackupIndex
  disk : Disk

/-- Write one file to disk. -/
def updateDisk (d : Disk) (p : String) (c : FileBytes) : Disk :=
  fun q => if q == p then some c else d q

/-- `HashMap::get` on the decoded index. -/
def indexLookup (idx : BackupIndex) (id : String) : Option BackupEntry :=
  match idx.find? (fun pr => pr.1 == id) with
  | some pr => some pr.2
  | none => none

/-- `HashMap::insert` on the decoded index: replace any binding of the key,
then add the new one. -/
def indexInsert (idx : BackupIndex) (id : String) (e : BackupEntry) : BackupIndex :=
  (idx.filter (fun pr => pr.1 != id)) ++ [(id, e)]

/-- `HashMap::remove` on the decoded index. -/
def indexRemove (idx : BackupIndex) (id : String) : BackupIndex :=
  idx.filter (fun pr => pr.1 != id)

/-- `Path::file_name` for the ordinary paths the store handles: the last
"/"-separated component, `none` when that component is empty or a dot
component. -/
def fileName (p : String) : Option String :=
  match (splitIfL (fun c => c == '/') p.data).getLast? with
  | none => none
  | some s =>
    if s == [] || s == ['.'] || s == ['.', '.'] then none else some (String.mk s)

/-- `BackupManager::calculate_file_hash`: read the file, digest its bytes. -/
def calculate_file_hash (sha256hex : FileBytes → String) (disk : Disk)
    (path : String) : Except String String :=
  match disk path with
  | none => .error "read failure"
  | some contents => .ok (sha256hex contents)

/-- The copy loop of `BackupManager::create_backup`: skip paths that are not
existing regular files, copy the rest into the backup subdirectory under
their base name (a later copy overwrites an earlier one with the same base
name), and record each `BackupFile` with the digest of the bytes read back
from the original path after the copy. -/
def backupLoop (sha256hex : FileBytes → String) (backup_subdir : String) :
    Disk → List String → Except String (List BackupFile × Disk)
  | disk, [] => .ok ([], disk)
  | disk, path :: rest =>
    match disk path with
    | none => backupLoop sha256hex backup_subdir disk rest
    | some contents =>
      match fileName path with
      | none => .error "Invalid file name"
      | some file_name =>
        let backup_path := backup_subdir ++ "/" ++ file_name
        let diskCopied := updateDisk disk backup_path contents
        match calculate_file_hash sha256hex diskCopied path with
        | .error e => .error e
        | .ok file_hash =>
          match backupLoop sha256hex backup_subdir diskCopied rest with
          | .error e => .error e
          | .ok (restFiles, finalDisk) =>
            .ok ({ original_path := path, backup_path := backup_path,
                   file_hash := file_hash } :: restFiles, finalDisk)

/-- The read step of `BackupManager::add_to_index`: the decoded index when the
index file exists, the empty map otherwise. -/
def indexOrEmpty (st : StoreState) : BackupIndex :=
  match st.index with
  | none => []
  | some l => l

/-- `BackupManager::create_backup`, with the fresh UUID and the timestamp as
arguments. -/
def create_backup (sha256hex : FileBytes → String) (st : StoreState)
    (id timestamp command : String) (paths : List String) :
    Except String (BackupEntry × StoreState) :=
  let backup_subdir := st.backup_dir ++ "/" ++ id
  match backupLoop sha256hex backup_subdir st.disk paths with
  | .error e => .error e
  | .ok (backup_files, diskAfter) =>
    let entry : BackupEntry :=
      { id := id
        timestamp := timestamp
        command := command
        files := backup_files
        description := "Backup before executing: " ++ command }
    .ok (entry,
      { st with disk := diskAfter,
                index := some (indexInsert (indexOrEmpty st) id entry) })

/-- `BackupManager::get_backup_entry`. -/
def get_backup_entry (st : StoreState) (backup_id : String) :
    Except String BackupEntry :=
  match st.index with
  | none => .error "No backups found"
  | some idx =>
    match indexLookup idx backup_id with
    | some e => .ok e
    | none => .error ("Backup " ++ backup_id ++ " not found")

/-- The restore loop of `BackupManager::restore_backup`: copy each backup
file back over its original path; a missing backup copy is skipped with a
non-fatal warning. -/
def restoreFiles : Disk → List BackupFile → Disk
  | disk, [] => disk
  | disk, f :: rest =>
    match disk f.backup_path with
    | some contents => restoreFiles (updateDisk disk f.original_path contents) rest
    | none => restoreFiles disk rest

/-- `BackupManager::restore_backup`. -/
def restore_backup (st : StoreState) (backup_id : String) :
    Except String StoreState :=
  match get_backup_entry st backup_id with
  | .error e => .error e
  | .ok entry => .ok { st with disk := restoreFiles st.disk entry.files }

/-- The descending-timestamp comparison of `BackupManager::list_backups`
(`b.timestamp.cmp(&a.timestamp)`, lexicographic on the strings). -/
def tsDesc (a b : BackupEntry) : Prop :=
  b.timestamp ≤ a.timestamp

instance : DecidableRel tsDesc :=
  fun a b => inferInstanceAs (Decidable (b.timestamp ≤ a.timestamp))

instance : IsTotal BackupEntry tsDesc :=
  ⟨fun a b => le_total b.timestamp a.timestamp⟩

instance : IsTrans BackupEntry tsDesc :=
  ⟨fun _ _ _ hab hbc => le_trans hbc hab⟩

/-- The ascending-timestamp comparison of `BackupManager::cleanup_old_backups`
(`a.timestamp.cmp(&b.timestamp)`). -/
def tsAsc (a b : BackupEntry) : Prop :=
  a.timestamp ≤ b.timestamp

instance : DecidableRel tsAsc :=
  fun a b => inferInstanceAs (Decidable (a.timestamp ≤ b.timestamp))

instance : IsTotal BackupEntry tsAsc :=
  ⟨fun a b => le_total a.timestamp b.timestamp⟩

instance : IsTrans BackupEntry tsAsc :=
  ⟨fun _ _ _ hab hbc => le_trans hab hbc⟩

/-- `BackupManager::list_backups`: empty when the index file is absent,
otherwise the index values sorted by timestamp descending (Rust `sort_by` is
a stable sort; `List.insertionSort` likewise). -/
def list_backups (st : StoreState) : Except String (List BackupEntry) :=
  match st.index with
  | none => .ok []
  | some idx => .ok (List.insertionSort tsDesc (idx.map Prod.snd))

/-- `BackupManager::delete_backup`: look the id up (failing as
`get_backup_entry` does), recursively remove the id's backup subdirectory
(no error when it is already absent), and remove the id from the index. -/
def delete_backup (st : StoreState) (backup_id : String) :
    Except String StoreState :=
  match get_backup_entry st backup_id with
  | .error e => .error e
  | .ok _ =>
    let backup_subdir := st.backup_dir ++ "/" ++ backup_id
    let diskAfter : Disk :=
      fun p => if strStartsWith p (backup_subdir ++ "/") then none else st.disk p
    let idxAfter := match st.index with
      | none => none
      | some idx => some (indexRemove idx backup_id)
    .ok { st with disk := diskAfter, index := idxAfter }

/-- The deletion loop of `BackupManager::cleanup_old_backups`, stopping at the
first error as the `?` operator does. -/
def deleteAll : StoreState → List String → Except String StoreState
  | st, [] => .ok st
  | st, id :: rest =>
    match delete_backup st id with
    | .error e => .error e
    | .ok stNext => deleteAll stNext rest

/-- `BackupManager::cleanup_old_backups`: list, no-op when at most
`keep_count` entries exist, else sort ascending by timestamp and delete the
oldest `total - keep_count` entries one at a time. -/
def cleanup_old_backups (st : StoreState) (keep_count : Nat) :
    Except String StoreState :=
  match list_backups st with
  | .error e => .error e
  | .ok backups =>
    if backups.length ≤ keep_count then .ok st
    else
      let sorted := List.insertionSort tsAsc backups
      let to_delete := backups.length - keep_count
      deleteAll st ((sorted.take to_delete).map BackupEntry.id)

/-! ### Theorems about the backup store -/

/-- A key occurring in the index has a lookup result. -/
theorem indexLookup_isSome_of_mem (idx : BackupIndex) (i : String)
    (h : i ∈ idx.map Prod.fst) : ∃ e, indexLookup idx i = some e := by
  have hex : ∃ pr ∈ idx, (pr.1 == i) = true := by
    obtain ⟨pr, hpr, heq⟩ := List.mem_map.mp h
    exact ⟨pr, hpr, by simp [heq]⟩
  obtain ⟨pr0, hfind⟩ :=
    Option.isSome_iff_exists.mp (List.find?_isSome.mpr hex)
  exact ⟨pr0.2, by unfold indexLookup; rw [hfind]⟩

/-- A key not occurring in the index has no lookup result. -/
theorem indexLookup_eq_none_of_not_mem (idx : BackupIndex) (i : String)
    (h : i ∉ idx.map Prod.fst) : indexLookup idx i = none := by
  have hfind : idx.find? (fun pr => pr.1 == i) = none := by
    rw [List.find?_eq_none]
    intro x hx hbeq
    exact h (List.mem_map.mpr ⟨x, hx, by simpa using hbeq⟩)
  unfold indexLookup
  rw [hfind]

/-- Looking up the key just inserted returns the inserted entry. -/
theorem indexLookup_insert (idx : BackupIndex) (id : String) (e : BackupEntry) :
    indexLookup (indexInsert idx id e) id = some e := by
  unfold indexLookup indexInsert
  rw [List.find?_append]
  have h1 : (idx.filter (fun pr => pr.1 != id)).find? (fun pr => pr.1 == id) = none := by
    rw [List.find?_eq_none]
    intro x hx
    have hne := (List.mem_filter.mp hx).2
    simp only [bne] at hne
    simp [Bool.not_eq_true'] at hne ⊢
    exact hne
  rw [h1]
  simp [List.find?]

/-- Successful shape of `delete_backup`: when the id is a key of the index,
deletion succeeds, the result's index is the old one with the id removed, and
the backup root is unchanged. -/
theorem delete_backup_ok (st : StoreState) (idx : BackupIndex) (i : String)
    (hidx : st.index = some idx) (hmem : i ∈ idx.map Prod.fst) :
    delete_backup st i = .ok
      { st with
        disk := fun p =>
          if strStartsWith p (st.backup_dir ++ "/" ++ i ++ "/") then none
          else st.disk p,
        index := some (indexRemove idx i) } := by
  obtain ⟨e, hl⟩ := indexLookup_isSome_of_mem idx i hmem
  simp [delete_backup, get_backup_entry, hidx, hl]

/-- C7: `list_backups` returns `ok []`, never an error, when the index file is
absent; when the index is present and well-formed it returns a permutation of
all index entries that is sorted by timestamp descending (string comparison,
which on the timestamp strings is lexicographic). -/
theorem list_backups_spec (st : StoreState) :
    (st.index = none → list_backups st = .ok []) ∧
    (∀ idx : BackupIndex, st.index = some idx →
      ∃ l, list_backups st = .ok l ∧
        l.Perm (idx.map Prod.snd) ∧ List.Sorted tsDesc l) := by
  constructor
  · intro h
    unfold list_backups
    rw [h]
  · intro idx h
    refine ⟨List.insertionSort tsDesc (idx.map Prod.snd), ?_, ?_, ?_⟩
    · unfold list_backups
      rw [h]
    · exact List.perm_insertionSort tsDesc (idx.map Prod.snd)
    · exact List.sorted_insertionSort tsDesc (idx.map Prod.snd)

/-- A two-entry index used to instantiate the store theorems. -/
def entryA : BackupEntry :=
  { id := "aaa", timestamp := "2024-01-01T00:00:00+00:00", command := "rm a.txt",
    files := [], description := "Backup before executing: rm a.txt" }

/-- A second sample entry, newer than `entryA`. -/
def entryB : BackupEntry :=
  { id := "bbb", timestamp := "2024-02-01T00:00:00+00:00", command := "rm b.txt",
    files := [], description := "Backup before executing: rm b.txt" }

/-- A sample store state holding `entryA` and `entryB`. -/
def sampleState : StoreState :=
  { backup_dir := "/home/user/.aichat_backups"
    index := some [("aaa", entryA), ("bbb", entryB)]
    disk := fun _ => none }

/-- Witness for C7 at `sampleState`. -/
theorem list_backups_spec_witness :
    ∃ l, list_backups sampleState = .ok l ∧
      l.Perm ([("aaa", entryA), ("bbb", entryB)].map Prod.snd) ∧
      List.Sorted tsDesc l :=
  (list_backups_spec sampleState).2 [("aaa", entryA), ("bbb", entryB)] rfl

/-- C8: `delete_backup` fails when the index file is absent or the id is not a
key of the index; when the id is a key of a well-formed index, it succeeds,
removes every file under the id's backup subdirectory from disk (and is a
no-op on that subdirectory when nothing is there), removes the id from the
index, and the id names no entry of a subsequent `list_backups` result. -/
theorem delete_backup_spec (st : StoreState) (backup_id : String) :
    ((st.index = none ∨
        ∃ idx : BackupIndex, st.index = some idx ∧ backup_id ∉ idx.map Prod.fst) →
      ∃ e, delete_backup st backup_id = .error e) ∧
    (∀ idx : BackupIndex, st.index = some idx →
      (∀ pr ∈ idx, pr.1 = pr.2.id) →
      backup_id ∈ idx.map Prod.fst →
      ∃ stA, delete_backup st backup_id = .ok stA ∧
        stA.index = some (indexRemove idx backup_id) ∧
        (∀ p : String,
          strStartsWith p (st.backup_dir ++ "/" ++ backup_id ++ "/") = true →
            stA.disk p = none) ∧
        (∀ l, list_backups stA = .ok l → ∀ e ∈ l, e.id ≠ backup_id)) := by
  constructor
  · rintro (hnone | ⟨idx, hsome, hnot⟩)
    · refine ⟨"No backups found", ?_⟩
      simp [delete_backup, get_backup_entry, hnone]
    · refine ⟨"Backup " ++ backup_id ++ " not found", ?_⟩
      simp [delete_backup, get_backup_entry, hsome,
        indexLookup_eq_none_of_not_mem idx backup_id hnot]
  · intro idx hidx hwf hmem
    refine ⟨_, delete_backup_ok st idx backup_id hidx hmem, rfl, ?_, ?_⟩
    · intro p hp
      simp [hp]
    · intro l hlist eEnt hmemE
      have hleq : l = List.insertionSort tsDesc ((indexRemove idx backup_id).map Prod.snd) := by
        unfold list_backups at hlist
        exact (Except.ok.inj hlist).symm
      rw [hleq] at hmemE
      have hmem2 := (List.mem_insertionSort tsDesc).mp hmemE
      obtain ⟨pr, hpr, hsnd⟩ := List.mem_map.mp hmem2
      have hne : (pr.1 != backup_id) = true := (List.mem_filter.mp hpr).2
      have hpr_idx : pr ∈ idx := (List.mem_filter.mp hpr).1
      have hkey : pr.1 = pr.2.id := hwf pr hpr_idx
      intro hcontra
      rw [← hsnd, ← hkey] at hcontra
      exact (bne_iff_ne.mp hne) hcontra

/-- Restoring an entry holding a single backup file whose backup copy is on
disk succeeds and puts the copied bytes back at the original path. -/
theorem restore_single (st2 : StoreState) (i : String) (entry : BackupEntry)
    (bf : BackupFile) (bytes : FileBytes)
    (hget : get_backup_entry st2 i = .ok entry)
    (hfiles : entry.files = [bf])
    (hbp : st2.disk bf.backup_path = some bytes) :
    ∃ stC, restore_backup st2 i = .ok stC ∧
      stC.disk bf.original_path = some bytes := by
  refine ⟨{ st2 with disk := restoreFiles st2.disk entry.files }, ?_, ?_⟩
  · simp [restore_backup, hget]
  · simp [hfiles, restoreFiles, hbp, updateDisk]

/-- C5: backup/restore round trip. For a file `F` on disk with contents
`bytes` whose base name is `name`, and a fresh backup id whose backup copy
path differs from `F` itself, `create_backup` over the single path `F`
succeeds with exactly one recorded `BackupFile` carrying the digest of
`bytes` — `F`'s bytes at call time — and after `F` is overwritten with any
`newBytes`, `restore_backup` on the returned entry's id succeeds and puts the
original `bytes` back at `F`. -/
theorem create_restore_round_trip (sha256hex : FileBytes → String)
    (st : StoreState) (F : String) (bytes : FileBytes) (name id ts cmd : String)
    (hF : st.disk F = some bytes)
    (hname : fileName F = some name)
    (hne : F ≠ st.backup_dir ++ "/" ++ id ++ "/" ++ name) :
    ∃ entry stB,
      create_backup sha256hex st id ts cmd [F] = .ok (entry, stB) ∧
      entry.id = id ∧
      entry.files = [{ original_path := F,
                       backup_path := st.backup_dir ++ "/" ++ id ++ "/" ++ name,
                       file_hash := sha256hex bytes }] ∧
      (∀ newBytes : FileBytes,
        ∃ stC,
          restore_backup { stB with disk := updateDisk stB.disk F newBytes } entry.id
            = .ok stC ∧
          stC.disk F = some bytes) := by
  have hFne : (F == st.backup_dir ++ "/" ++ id ++ "/" ++ name) = false :=
    beq_eq_false_iff_ne.mpr hne
  have hbpne : (st.backup_dir ++ "/" ++ id ++ "/" ++ name == F) = false :=
    beq_eq_false_iff_ne.mpr (Ne.symm hne)
  refine ⟨{ id := id, timestamp := ts, command := cmd,
            files := [{ original_path := F,
                        backup_path := st.backup_dir ++ "/" ++ id ++ "/" ++ name,
                        file_hash := sha256hex bytes }],
            description := "Backup before executing: " ++ cmd },
          { st with
            disk := updateDisk st.disk (st.backup_dir ++ "/" ++ id ++ "/" ++ name) bytes,
            index := some (indexInsert (indexOrEmpty st) id
              { id := id, timestamp := ts, command := cmd,
                files := [{ original_path := F,
                            backup_path := st.backup_dir ++ "/" ++ id ++ "/" ++ name,
                            file_hash := sha256hex bytes }],
                description := "Backup before executing: " ++ cmd }) },
          ?_, rfl, rfl, ?_⟩
  · simp [create_backup, backupLoop, calculate_file_hash, updateDisk, hF, hname, hFne]
  · intro newBytes
    exact restore_single _ _
      { id := id, timestamp := ts, command := cmd,
        files := [⟨F, st.backup_dir ++ "/" ++ id ++ "/" ++ name, sha256hex bytes⟩],
        description := "Backup before executing: " ++ cmd }
      ⟨F, st.backup_dir ++ "/" ++ id ++ "/" ++ name, sha256hex bytes⟩ bytes
      (by simp [get_backup_entry, indexLookup_insert]) rfl
      (by simp [updateDisk, hbpne])

/-- A sample digest function for the witnesses; the round-trip theorem holds
for every digest function. -/
def sampleSha (bs : FileBytes) : String :=
  "sha-" ++ toString bs.length

/-- A disk holding one user file. -/
def sampleDisk : Disk :=
  fun p => if p == "/tmp/notes.txt" then some [104, 105] else none

/-- A store with no index file yet and one user file on disk. -/
def freshState : StoreState :=
  { backup_dir := "/home/user/.aichat_backups", index := none, disk := sampleDisk }

/-- Witness for C5 backing up and restoring "/tmp/notes.txt" in `freshState`. -/
theorem create_restore_round_trip_witness :
    freshState.disk "/tmp/notes.txt" = some [104, 105] ∧
    fileName "/tmp/notes.txt" = some "notes.txt" ∧
    "/tmp/notes.txt" ≠ freshState.backup_dir ++ "/" ++ "id-1" ++ "/" ++ "notes.txt" ∧
    (∃ entry stB,
      create_backup sampleSha freshState "id-1" "2024-03-01T00:00:00+00:00"
          "rm /tmp/notes.txt" ["/tmp/notes.txt"] = .ok (entry, stB) ∧
      entry.id = "id-1" ∧
      entry.files = [{ original_path := "/tmp/notes.txt",
                       backup_path :=
                         freshState.backup_dir ++ "/" ++ "id-1" ++ "/" ++ "notes.txt",
                       file_hash := sampleSha [104, 105] }] ∧
      (∀ newBytes : FileBytes,
        ∃ stC,
          restore_backup { stB with disk := updateDisk stB.disk "/tmp/notes.txt" newBytes }
              entry.id = .ok stC ∧
          stC.disk "/tmp/notes.txt" = some [104, 105])) :=
  ⟨rfl, by decide, by decide,
    create_restore_round_trip sampleSha freshState "/tmp/notes.txt" [104, 105]
      "notes.txt" "id-1" "2024-03-01T00:00:00+00:00" "rm /tmp/notes.txt"
      rfl (by decide) (by decide)⟩

/-- Effect of the cleanup deletion loop: deleting a duplicate-free list of
keys that all occur in the index succeeds and removes exactly those keys. -/
theorem deleteAll_ok (ids : List String) :
    ∀ (st : StoreState) (idx : BackupIndex),
      st.index = some idx →
      ids.Nodup →
      (∀ i ∈ ids, i ∈ idx.map Prod.fst) →
      ∃ stA, deleteAll st ids = .ok stA ∧
        stA.index = some (idx.filter (fun pr => !ids.contains pr.1)) := by
  induction ids with
  | nil =>
    intro st idx hidx _ _
    refine ⟨st, rfl, ?_⟩
    simpa using hidx
  | cons i rest ih =>
    intro st idx hidx hnodup hsub
    have hmem : i ∈ idx.map Prod.fst := hsub i (List.mem_cons_self i rest)
    have hdel := delete_backup_ok st idx i hidx hmem
    have hinotin : i ∉ rest := (List.nodup_cons.mp hnodup).1
    have hsub2 : ∀ j ∈ rest, j ∈ (indexRemove idx i).map Prod.fst := by
      intro j hj
      obtain ⟨pr, hpr, hprj⟩ := List.mem_map.mp (hsub j (List.mem_cons_of_mem i hj))
      have hjne : j ≠ i := fun h => hinotin (h ▸ hj)
      refine List.mem_map.mpr ⟨pr, List.mem_filter.mpr ⟨hpr, ?_⟩, hprj⟩
      rw [hprj]
      exact bne_iff_ne.mpr hjne
    obtain ⟨stA, hda, hidxA⟩ :=
      ih { st with
            disk := fun p =>
              if strStartsWith p (st.backup_dir ++ "/" ++ i ++ "/") then none
              else st.disk p,
            index := some (indexRemove idx i) }
        (indexRemove idx i) rfl (List.nodup_cons.mp hnodup).2 hsub2
    refine ⟨stA, ?_, ?_⟩
    · unfold deleteAll
      rw [hdel]
      exact hda
    · rw [hidxA]
      unfold indexRemove
      rw [List.filter_filter]
      exact congrArg some (List.filter_congr (fun pr _ => by
        by_cases hpe : pr.1 = i <;> by_cases hpr : pr.1 ∈ rest <;>
          simp [List.contains_cons, hpe, hpr, bne, Bool.not_or, Bool.and_comm]))

/-- Filtering a duplicate-id list down to the ids not among its first `m`
keeps exactly the elements after position `m`. -/
theorem filter_not_contains_take_drop {L : List BackupEntry} {m : Nat}
    (hnodup : (L.map BackupEntry.id).Nodup) :
    L.filter (fun e => !((L.take m).map BackupEntry.id).contains e.id) = L.drop m := by
  set D := (L.take m).map BackupEntry.id with hD
  have happ : ((L.take m).map BackupEntry.id ++ (L.drop m).map BackupEntry.id).Nodup := by
    rw [← List.map_append, List.take_append_drop]
    exact hnodup
  have hsplitnodup := List.nodup_append.mp happ
  conv_lhs => rw [← List.take_append_drop m L]
  rw [List.filter_append]
  have h1 : (L.take m).filter (fun e => !D.contains e.id) = [] := by
    rw [List.filter_eq_nil_iff]
    intro e he hcontra
    have hcmem : D.contains e.id = true :=
      List.elem_iff.mpr (by rw [hD]; exact List.mem_map.mpr ⟨e, he, rfl⟩)
    rw [hcmem] at hcontra
    exact Bool.false_ne_true hcontra
  have h2 : (L.drop m).filter (fun e => !D.contains e.id) = L.drop m := by
    rw [List.filter_eq_self]
    intro e he
    have hnotmem : e.id ∉ D := by
      rw [hD]
      intro hmemT
      exact hsplitnodup.2.2 hmemT (List.mem_map.mpr ⟨e, he, rfl⟩)
    cases hcc : D.contains e.id with
    | false => simp [hcc]
    | true => exact absurd (List.elem_iff.mp hcc) hnotmem
  rw [h1, h2, List.nil_append]

/-- C6: `cleanup_old_backups k` on a well-formed index is a no-op when the
entry count is at or below `k`; in every case it succeeds leaving exactly
`min k total` entries, namely (a permutation of) what remains of the
ascending-by-timestamp sort after dropping its `total - k` oldest entries —
the most recent entries by timestamp. -/
theorem cleanup_old_backups_spec (st : StoreState) (idx : BackupIndex) (k : Nat)
    (hidx : st.index = some idx)
    (hkeys : (idx.map Prod.fst).Nodup)
    (hwf : ∀ pr ∈ idx, pr.1 = pr.2.id) :
    (idx.length ≤ k → cleanup_old_backups st k = .ok st) ∧
    (∃ stA idxA, cleanup_old_backups st k = .ok stA ∧ stA.index = some idxA ∧
      idxA.length = min k idx.length ∧
      (idxA.map Prod.snd).Perm
        ((List.insertionSort tsAsc
            (List.insertionSort tsDesc (idx.map Prod.snd))).drop
          (idx.length - k))) := by
  have hlist : list_backups st =
      .ok (List.insertionSort tsDesc (idx.map Prod.snd)) := by
    unfold list_backups
    rw [hidx]
  have hdl : (List.insertionSort tsDesc (idx.map Prod.snd)).length = idx.length := by
    rw [List.length_insertionSort, List.length_map]
  have hascperm :
      (List.insertionSort tsAsc
        (List.insertionSort tsDesc (idx.map Prod.snd))).Perm (idx.map Prod.snd) :=
    (List.perm_insertionSort tsAsc _).trans (List.perm_insertionSort tsDesc _)
  have hnoop : idx.length ≤ k → cleanup_old_backups st k = .ok st := by
    intro hle
    simp only [cleanup_old_backups, hlist]
    rw [if_pos (by rw [hdl]; exact hle)]
  refine ⟨hnoop, ?_⟩
  by_cases hk : idx.length ≤ k
  · refine ⟨st, idx, hnoop hk, hidx, ?_, ?_⟩
    · rw [Nat.min_eq_right hk]
    · rw [Nat.sub_eq_zero_of_le hk, List.drop_zero]
      exact hascperm.symm
  · have hkn : k < idx.length := not_le.mp hk
    have hvalsid : (idx.map Prod.snd).map BackupEntry.id = idx.map Prod.fst := by
      rw [List.map_map]
      exact List.map_congr_left (fun pr hpr => (hwf pr hpr).symm)
    have hascid_nodup :
        ((List.insertionSort tsAsc
          (List.insertionSort tsDesc (idx.map Prod.snd))).map BackupEntry.id).Nodup :=
      ((hascperm.map BackupEntry.id).symm).nodup (hvalsid ▸ hkeys)
    have hsplit :
        List.insertionSort tsAsc (List.insertionSort tsDesc (idx.map Prod.snd)) =
          (List.insertionSort tsAsc
            (List.insertionSort tsDesc (idx.map Prod.snd))).take (idx.length - k) ++
          (List.insertionSort tsAsc
            (List.insertionSort tsDesc (idx.map Prod.snd))).drop (idx.length - k) :=
      (List.take_append_drop _ _).symm
    have hnodup_app := List.nodup_append.mp (by
      rw [← List.map_append, ← hsplit]
      exact hascid_nodup)
    have hids_nodup :
        (((List.insertionSort tsAsc
          (List.insertionSort tsDesc (idx.map Prod.snd))).take (idx.length - k)).map
            BackupEntry.id).Nodup := hnodup_app.1
    have hids_sub :
        ∀ i ∈ ((List.insertionSort tsAsc
            (List.insertionSort tsDesc (idx.map Prod.snd))).take (idx.length - k)).map
              BackupEntry.id,
          i ∈ idx.map Prod.fst := by
      intro i hi
      obtain ⟨e, heT, heid⟩ := List.mem_map.mp hi
      have hevals : e ∈ idx.map Prod.snd :=
        hascperm.mem_iff.mp (List.mem_of_mem_take heT)
      rw [← hvalsid]
      exact List.mem_map.mpr ⟨e, hevals, heid⟩
    obtain ⟨stA, hdelall, hidxA⟩ := deleteAll_ok _ st idx hidx hids_nodup hids_sub
    have hclean : cleanup_old_backups st k = .ok stA := by
      simp only [cleanup_old_backups, hlist]
      rw [if_neg (by rw [hdl]; exact hk)]
      rw [hdl]
      exact hdelall
    -- the kept entries are exactly the dropped part of the ascending sort
    have hkept :
        ((idx.filter (fun pr =>
          !(((List.insertionSort tsAsc
              (List.insertionSort tsDesc (idx.map Prod.snd))).take (idx.length - k)).map
                BackupEntry.id).contains pr.1)).map Prod.snd).Perm
          ((List.insertionSort tsAsc
            (List.insertionSort tsDesc (idx.map Prod.snd))).drop (idx.length - k)) := by
      have hco : idx.filter (fun pr =>
            !(((List.insertionSort tsAsc
                (List.insertionSort tsDesc (idx.map Prod.snd))).take (idx.length - k)).map
                  BackupEntry.id).contains pr.1)
          = idx.filter ((fun e =>
              !(((List.insertionSort tsAsc
                (List.insertionSort tsDesc (idx.map Prod.snd))).take (idx.length - k)).map
                  BackupEntry.id).contains e.id) ∘ Prod.snd) :=
        List.filter_congr (fun pr hpr => by
          simp only [Function.comp_apply]
          rw [hwf pr hpr])
      rw [hco, ← List.filter_map]
      have hfd := @filter_not_contains_take_drop (List.insertionSort tsAsc
        (List.insertionSort tsDesc (idx.map Prod.snd))) (idx.length - k) hascid_nodup
      exact hfd ▸ List.Perm.filter _ hascperm.symm
    refine ⟨stA, _, hclean, hidxA, ?_, hkept⟩
    have hlen : (idx.filter (fun pr =>
          !(((List.insertionSort tsAsc
            (List.insertionSort tsDesc (idx.map Prod.snd))).take (idx.length - k)).map
              BackupEntry.id).contains pr.1)).length
        = ((List.insertionSort tsAsc
            (List.insertionSort tsDesc (idx.map Prod.snd))).drop (idx.length - k)).length := by
      rw [← List.length_map _ Prod.snd]
      exact hkept.length_eq
    rw [hlen, List.length_drop, List.length_insertionSort, hdl]
    omega

/-- Witness for C6 at `sampleState` with `keep_count` 1. -/
theorem cleanup_old_backups_spec_witness :
    (([("aaa", entryA), ("bbb", entryB)] : BackupIndex).map Prod.fst).Nodup ∧
    (∀ pr ∈ ([("aaa", entryA), ("bbb", entryB)] : BackupIndex), pr.1 = pr.2.id) ∧
    ((([("aaa", entryA), ("bbb", entryB)] : BackupIndex).length ≤ 1 →
        cleanup_old_backups sampleState 1 = .ok sampleState) ∧
      (∃ stA idxA, cleanup_old_backups sampleState 1 = .ok stA ∧
        stA.index = some idxA ∧
        idxA.length = min 1 ([("aaa", entryA), ("bbb", entryB)] : BackupIndex).length ∧
        (idxA.map Prod.snd).Perm
          ((List.insertionSort tsAsc
              (List.insertionSort tsDesc
                (([("aaa", entryA), ("bbb", entryB)] : BackupIndex).map Prod.snd))).drop
            (([("aaa", entryA), ("bbb", entryB)] : BackupIndex).length - 1)))) :=
  ⟨by decide, by decide,
    cleanup_old_backups_spec sampleState [("aaa", entryA), ("bbb", entryB)] 1
      rfl (by decide) (by decide)⟩

/-- Witness for C8 at `sampleState`, deleting "aaa". -/
theorem delete_backup_spec_witness :
    ∃ stA, delete_backup sampleState "aaa" = .ok stA ∧
      stA.index = some (indexRemove [("aaa", entryA), ("bbb", entryB)] "aaa") ∧
      (∀ p : String,
        strStartsWith p (sampleState.backup_dir ++ "/" ++ "aaa" ++ "/") = true →
          stA.disk p = none) ∧
      (∀ l, list_backups stA = .ok l → ∀ e ∈ l, e.id ≠ "aaa") :=
  (delete_backup_spec sampleState "aaa").2 [("aaa", entryA), ("bbb", entryB)]
    rfl (by decide) (by decide)

end Aichat
